import Mathlib

/-!
Shallow embedding of the Nanolab-Keithleys repository (src/procedures.py,
src/data_analysis.py) and verification of its specification claims.

Numeric values (voltages, currents, delays) are embedded as exact numbers:
`ℚ` where the code is purely arithmetical, `ℝ` where it uses `log`, `sqrt`
or real powers.  Python exceptions are embedded as `Option`/`Except`
results.  Instrument I/O (pyvisa message traffic) is out of scope; the
timing-relevant configuration values the orchestration code computes and
hands to the instrument driver are embedded as record fields.
-/

namespace Nanolab

/-! ## SweepPoints (procedures.py lines 10-41) -/

/-- Exact-arithmetic model of `numpy.linspace(start, stop, num)`:
`num` evenly spaced samples from `start` to `stop` inclusive. -/
noncomputable def linspace (start stop : ℝ) (num : ℕ) : List ℝ :=
  (List.range num).map (fun i : ℕ => start + (i : ℝ) * ((stop - start) / ((num : ℝ) - 1)))

/-- Exact-arithmetic model of `numpy.geomspace(start, stop, num)` (geometric
spacing) on nonzero endpoints. -/
noncomputable def geomspace (start stop : ℝ) (num : ℕ) : List ℝ :=
  (List.range num).map (fun i : ℕ => start * (stop / start) ^ ((i : ℝ) / ((num : ℝ) - 1)))

/-- A `SweepPoints` value: the generated sequence together with the scale
tag stored on the array (`out.scale = scale`). -/
structure SweepPoints where
  values : List ℝ
  scale : String

/-- `SweepPoints.__new__(cls, start, end, points, scale)`: `match scale` with
the two recognized spellings of each policy; any other tag raises
`ValueError`.  `numpy.geomspace` itself raises when an endpoint is zero
(`ValueError('Geometric sequence cannot include zero')`), which the code
does not catch, so the logarithmic branch propagates that error. -/
noncomputable def SweepPoints.new (start stop : ℝ) (points : ℕ) (scale : String) :
    Except String SweepPoints :=
  if scale = "linear" ∨ scale = "lin" then
    .ok ⟨linspace start stop points, scale⟩
  else if scale = "logarithmic" ∨ scale = "log" then
    if start = 0 ∨ stop = 0 then .error "Geometric sequence cannot include zero"
    else .ok ⟨geomspace start stop points, scale⟩
  else .error "scale must be either linear or logarithmic"

/-- One keyword argument passed to `SweepPoints.regen(**kwargs)`.  The four
recognized keys carry their payloads; `other k` stands for any keyword
whose name `k` is none of `start`, `end`, `points`, `scale`. -/
inductive RegenArg where
  | start (x : ℝ)
  | rend (x : ℝ)
  | points (n : ℕ)
  | scale (s : String)
  | other (key : String)

/-- The four generation parameters `regen` merges overrides into. -/
structure SParams where
  start : ℝ
  stop : ℝ
  points : ℕ
  scale : String

/-- One iteration of the `for key, item in kwargs.items()` loop of `regen`:
a recognized key overwrites the corresponding parameter, an unrecognized
key raises `ValueError`. -/
def regenStep (p : SParams) : RegenArg → Except String SParams
  | .start x => .ok { p with start := x }
  | .rend x => .ok { p with stop := x }
  | .points n => .ok { p with points := n }
  | .scale s => .ok { p with scale := s }
  | .other k =>
      .error (k ++ " is not an accepted kwarg. Try start, end, points, or scale.")

/-- `SweepPoints.regen(self, **kwargs)`: read `start = self[0]`,
`points = len(self)`, `end = self[points - 1]`, `scale = self.scale`, fold
the keyword overrides over them (first unknown key aborts), regenerate with
the merged parameters, and replace the payload of `self` in place
(`self[:] = new[:]; self.__dict__.update(new.__dict__)`).  The returned
value is the post-state of `self`. -/
noncomputable def SweepPoints.regen (sp : SweepPoints) (kwargs : List RegenArg) :
    Except String SweepPoints := do
  let p₀ : SParams :=
    { start := sp.values.headD 0
      stop := sp.values.getD (sp.values.length - 1) 0
      points := sp.values.length
      scale := sp.scale }
  let p ← kwargs.foldlM regenStep p₀
  SweepPoints.new p.start p.stop p.points p.scale

/-! ## Soak policy of the sweep constructors (procedures.py lines 44-50,
76-84, 121-125, 136-140)

Each constructor builds `a = {True: soak, False: 0}`, keeps
`self.soak = a[not azero]` as the explicit per-step `sleep` delay used by
`execute()`, and passes `a[azero]` to each instrument driver as its
`source:delay` (pre-measurement delay) setting. -/

/-- `a = {True: soak, False: 0}` as a function of the dictionary key. -/
def soakDict (soak : ℚ) : Bool → ℚ := fun b => if b then soak else 0

/-- Timing-relevant state of `Sweep.__init__`: the explicit per-step delay
`self.soak` and the `soak` (source delay) passed to the `Keithley2400`. -/
structure Sweep where
  soak : ℚ
  sourcemeter_soak : ℚ
  azero : Bool

/-- `Sweep.__init__(..., soak, azero=False, ...)` soak policy. -/
def Sweep.init (soak : ℚ) (azero : Bool) : Sweep :=
  { soak := soakDict soak (!azero)
    sourcemeter_soak := soakDict soak azero
    azero := azero }

/-- Timing-relevant state of `DualSweep.__init__`: the explicit per-step
delay and the source delays passed to the two `Keithley2400`s. -/
structure DualSweep where
  soak : ℚ
  primary_sourcemeter_soak : ℚ
  secondary_sourcemeter_soak : ℚ
  azero : Bool

/-- `DualSweep.__init__(..., soak, azero=False, ...)` soak policy. -/
def DualSweep.init (soak : ℚ) (azero : Bool) : DualSweep :=
  { soak := soakDict soak (!azero)
    primary_sourcemeter_soak := soakDict soak azero
    secondary_sourcemeter_soak := soakDict soak azero
    azero := azero }

/-- Timing-relevant state of `PicoSweep.__init__`: the inherited `Sweep`
state plus the soak passed to the `Keithley6485` ammeter. -/
structure PicoSweep where
  toSweep : Sweep
  ammeter_soak : ℚ

/-- `PicoSweep.__init__` delegates to `Sweep.__init__` with the same `soak`
and `azero` and gives the ammeter `a[azero]` as its soak. -/
def PicoSweep.init (soak : ℚ) (azero : Bool) : PicoSweep :=
  { toSweep := Sweep.init soak azero
    ammeter_soak := soakDict soak azero }

/-- Timing-relevant state of `PicoDualSweep.__init__`: the inherited
`DualSweep` state plus the ammeter soak. -/
structure PicoDualSweep where
  toDualSweep : DualSweep
  ammeter_soak : ℚ

/-- `PicoDualSweep.__init__` delegates to `DualSweep.__init__` with the same
`soak` and `azero` and gives the ammeter `a[azero]` as its soak. -/
def PicoDualSweep.init (soak : ℚ) (azero : Bool) : PicoDualSweep :=
  { toDualSweep := DualSweep.init soak azero
    ammeter_soak := soakDict soak azero }

/-! ## DualSweep.execute (procedures.py lines 89-118)

Instrument I/O is abstracted: `measP i j` (resp. `measS i j`) is the
`MeasurementRecord` the primary (resp. secondary) sourcemeter's blocking
`measure()` returns at the step with primary index `i` and secondary index
`j`.  The pre-sized DataFrames (`RangeIndex(stop=m*n)`, rows overwritten
via `iloc`) are embedded as maps from row index to an optional record,
starting everywhere unfilled. -/

/-- The record `Keithley2400.measure()` returns:
`{'voltage': ..., 'voltage sd': ..., 'current': ..., 'current sd': ...}`. -/
structure MRecord where
  voltage : ℚ
  voltage_sd : ℚ
  current : ℚ
  current_sd : ℚ
  deriving DecidableEq

/-- A DataFrame row as an ordered association list of column name/value
pairs; the column order is the `columns=[...]` order of the constructor. -/
def MRecord.toRow (r : MRecord) : List (String × ℚ) :=
  [("voltage", r.voltage), ("voltage sd", r.voltage_sd),
   ("current", r.current), ("current sd", r.current_sd)]

/-- `DataFrame.add_prefix(p)`: rename every column `c` to `p ++ c`. -/
def prefixRow (p : String) (row : List (String × ℚ)) : List (String × ℚ) :=
  row.map (fun cv => (p ++ cv.1, cv.2))

/-- A pre-sized result table: row index to optional record, unfilled rows
(`NaN` rows of the pre-sized DataFrame) are `none`. -/
abbrev RTable := ℕ → Option MRecord

/-- `df.iloc[idx] = r`: overwrite row `idx`, leave every other row. -/
def RTable.write (tab : RTable) (idx : ℕ) (r : MRecord) : RTable :=
  fun k => if k = idx then some r else tab k

/-- The `(i, j)` iteration order of `execute()`: primary index `i` outer,
secondary index `j` inner. -/
def sweepPairs (m n : ℕ) : List (ℕ × ℕ) :=
  (List.range m).flatMap (fun i => (List.range n).map (fun j => (i, j)))

/-- The stores `df.iloc[i * len(secondary_voltages) + j] = meas(i, j)`
performed by the nested loop of `execute()`, in order. -/
def runStores (n : ℕ) (meas : ℕ → ℕ → MRecord) (pairs : List (ℕ × ℕ))
    (tab : RTable) : RTable :=
  pairs.foldl (fun t ij => t.write (ij.1 * n + ij.2) (meas ij.1 ij.2)) tab

/-- A row of the joined frame `primary_df.join(secondary_df.add_prefix('secondary '))`:
the primary row's columns followed by the secondary row's columns with the
`secondary ` name prefix.  An unfilled row contributes no columns. -/
def joinedRow (p s : Option MRecord) : List (String × ℚ) :=
  (p.map MRecord.toRow).getD [] ++ prefixRow "secondary " ((s.map MRecord.toRow).getD [])

/-- `DualSweep.execute()` over `m` primary and `n` secondary voltages with
abstracted instrument reads: fill both pre-sized tables through the nested
loop, then return the two tables and the row-wise join. -/
def DualSweep.execute (m n : ℕ) (measP measS : ℕ → ℕ → MRecord) :
    RTable × RTable × List (List (String × ℚ)) :=
  let pt := runStores n measP (sweepPairs m n) (fun _ => none)
  let st := runStores n measS (sweepPairs m n) (fun _ => none)
  (pt, st, (List.range (m * n)).map (fun k => joinedRow (pt k) (st k)))

/-! ## Analysis (data_analysis.py)

An `Analysis` table is embedded column-wise: an ordered association list of
column name / value-list pairs (all value lists of one table have the same
length, the row count).  `df['c']` is first-match lookup, as a DataFrame
with unique column labels. -/

/-- An Analysis table: ordered columns, each a name and its values. -/
abbrev Table := List (String × List ℚ)

/-- `'c' in df`: does the table have a column named `c`? -/
def Table.hasCol (t : Table) (c : String) : Bool :=
  t.any (fun nc => nc.1 = c)

/-- `df['c']` for a column known to exist (first match; the empty list for
a missing column, a case the Python code would raise `KeyError` on). -/
def Table.getCol (t : Table) (c : String) : List ℚ :=
  ((t.find? (fun nc => nc.1 = c)).map (·.2)).getD []

/-- `df['c'] = df['c'].map(f)` column-wise: apply `f` to every value of
column `c`, leave all other columns unchanged. -/
def Table.mapCol (t : Table) (c : String) (f : ℚ → ℚ) : Table :=
  t.map (fun nc => if nc.1 = c then (nc.1, nc.2.map f) else nc)

/-- `min(l, key=abs)`: the first element of minimal absolute value
(`none` on an empty list, where Python `min` raises `ValueError`). -/
def minAbs : List ℚ → Option ℚ
  | [] => none
  | x :: xs => some (xs.foldl (fun b a => if |a| < |b| then a else b) x)

/-- `df.set_index('voltage'); df.at[v, 'current']`: the current paired with
the first row whose voltage is `v` (with a unique voltage index this is the
`at` lookup of the code; `0` for an absent label, where Python raises). -/
def valueAt (vs cs : List ℚ) (v : ℚ) : ℚ :=
  (((vs.zip cs).find? (fun p => p.1 = v)).map (·.2)).getD 0

/-- `find_zero(df)` of `Analysis.zero`, on the voltage and current columns:
both `pv` and `nv` filter the same non-positive subset (the code's own
likely bug, kept as written), take the element closest to zero of each,
look up the current at each, and select by comparing the two magnitudes
(averaging on a tie).  `none` embeds the `ValueError` that `min` raises
when the subset is empty. -/
def find_zero (vs cs : List ℚ) : Option ℚ :=
  let pv := vs.filter (fun v => v ≤ 0)
  let nv := vs.filter (fun v => v ≤ 0)
  match minAbs pv, minAbs nv with
  | some min_pv, some min_nv =>
      let min_nc := valueAt vs cs min_nv
      let min_pc := valueAt vs cs min_pv
      if |min_pv| > |min_nv| then some min_pc
      else if |min_pv| < |min_nv| then some min_nc
      else some ((min_nc + min_pc) / 2)
  | _, _ => none

/-- Order-preserving `Series.unique()`. -/
def uniques (l : List ℚ) : List ℚ :=
  l.foldl (fun acc x => if x ∈ acc then acc else acc ++ [x]) []

/-- `self[self['secondary voltage'].eq(sv)]['c']`: the values of column `c`
on the rows whose secondary voltage equals `sv`. -/
def selRows (t : Table) (sv : ℚ) (c : String) : List ℚ :=
  (((t.getCol "secondary voltage").zip (t.getCol c)).filter
    (fun p => p.1 = sv)).map (·.2)

/-- `Analysis.zero(self, inplace=False)`: compute the calibration constant
(per secondary-voltage level and averaged for dual-sweep tables, directly
otherwise), subtract it from every value of the current column of a copy,
overwrite `self` with the copy when `inplace`, and return the copy.  The
result is `(post-state of self, returned table)`; `none` embeds the
`ValueError` raised when a scanned voltage subset is empty. -/
def Analysis.zero (t : Table) (inplace : Bool) : Option (Table × Table) :=
  (if t.hasCol "secondary voltage" then
    (((uniques (t.getCol "secondary voltage")).mapM
        (fun sv => find_zero (selRows t sv "voltage") (selRows t sv "current"))).map
      (fun vals => vals.sum / (vals.length : ℚ)))
  else
    find_zero (t.getCol "voltage") (t.getCol "current")).map
  (fun cal =>
    let op := t.mapCol "current" (fun x => x - cal)
    (if inplace then op else t, op))

/-- `Analysis.invert_current(self, primary=True, secondary=False,
inplace=False)`: on a copy, multiply the current column by `-1` when
`primary`, multiply the secondary current column by `-1` when it exists
and `secondary`, overwrite `self` with the copy when `inplace`, and return
the copy.  The result is `(post-state of self, returned table)`. -/
def Analysis.invert_current (t : Table) (primary secondary inplace : Bool) :
    Table × Table :=
  let output := if primary then t.mapCol "current" (fun x => x * (-1)) else t
  let output :=
    if output.hasCol "secondary current" && secondary then
      output.mapCol "secondary current" (fun x => x * (-1))
    else output
  (if inplace then output else t, output)

/-- The two-row table of the spec's `zero` calibration test:
`{voltage: -1, current: -5}` and `{voltage: 2, current: 8}`. -/
def zeroExample : Table := [("voltage", [-1, 2]), ("current", [-5, 8])]

/-! ## Analysis.fowler_nordheim_transform (data_analysis.py lines 129-165)

The transform is applied row-by-row with the default column names; a
row's measured values are embedded as exact reals.  Each helper wraps its
formula in `try/except`, returning `None` on the listed exceptions; that
is embedded as an `Option ℝ` whose `none` branch is taken exactly when
the Python expression raises a caught exception. -/

/-- One input row: `voltage`, `voltage sd`, `current`, `current sd`. -/
structure FnInput where
  voltage : ℝ
  voltage_sd : ℝ
  current : ℝ
  current_sd : ℝ

/-- One output row of the transform: `fn_x`, `fn_x sd`, `fn_y`, `fn_y sd`,
each `none` when the corresponding helper returned `None`. -/
structure FnRow where
  fn_x : Option ℝ
  fn_x_sd : Option ℝ
  fn_y : Option ℝ
  fn_y_sd : Option ℝ

/-- `x_transform(voltage)`: `1 / voltage`, `None` on `ZeroDivisionError`. -/
noncomputable def x_transform (voltage : ℝ) : Option ℝ :=
  if voltage = 0 then none else some (1 / voltage)

/-- `x_sd(voltage, voltage_sd)`: `1 / voltage * voltage_sd ** 0.5`, `None`
on `ZeroDivisionError` (voltage zero). -/
noncomputable def x_sd (voltage voltage_sd : ℝ) : Option ℝ :=
  if voltage = 0 then none
  else some (1 / voltage * Real.sqrt voltage_sd)

/-- `y_transform(voltage, current)`: `log(abs(current / voltage ** 2))`,
`None` on `ZeroDivisionError` (voltage zero) or `ValueError` (log of the
zero that `abs(current / voltage ** 2)` is exactly when current is zero). -/
noncomputable def y_transform (voltage current : ℝ) : Option ℝ :=
  if voltage = 0 then none
  else if current = 0 then none
  else some (Real.log |current / voltage ^ 2|)

/-- `y_sd(current, current_sd, voltage, voltage_sd)`:
`((2 / voltage * voltage_sd) ** 2 + (1 / current * current_sd) ** 2) ** 0.5`,
`None` on `ZeroDivisionError` (voltage or current zero). -/
noncomputable def y_sd (current current_sd voltage voltage_sd : ℝ) : Option ℝ :=
  if voltage = 0 then none
  else if current = 0 then none
  else some (Real.sqrt ((2 / voltage * voltage_sd) ^ 2 +
    (1 / current * current_sd) ^ 2))

/-- The four per-row applications (`self.apply(..., axis=1)` builds each
output column by applying its helper to each row independently). -/
noncomputable def fnRow (r : FnInput) : FnRow :=
  { fn_x := x_transform r.voltage
    fn_x_sd := x_sd r.voltage r.voltage_sd
    fn_y := y_transform r.voltage r.current
    fn_y_sd := y_sd r.current r.current_sd r.voltage r.voltage_sd }

/-- `Analysis.fowler_nordheim_transform` on the default columns: every row
transformed independently. -/
noncomputable def fowler_nordheim_transform (rows : List FnInput) : List FnRow :=
  rows.map fnRow

/-! ## Theorems -/

/-- C1, counterexample.  The claim as stated is false at soak `s = 5` with
auto-zeroing enabled: `a = {True: soak, False: 0}; self.soak = a[not azero]`
gives the explicit per-step delay `0` (not `5`) and hands `a[azero] = 5`
(not `0`) to the instrument as its pre-measurement delay. -/
theorem soak_policy_claim_false :
    ¬ ((Sweep.init 5 true).soak = 5 ∧ (Sweep.init 5 true).sourcemeter_soak = 0) := by
  decide

/-- C1, amended.  For every Sweep (and DualSweep/Pico variant) constructed
with soak time `s`: if instrument auto-zeroing is enabled, the explicit
per-step delay used by `execute()` is `0` and `s` is delegated to the
instrument's pre-measurement delay setting; if auto-zeroing is disabled,
the explicit per-step delay equals `s` and the instrument's pre-measurement
delay is set to `0`; in both cases the two delays sum to `s`, so the total
delay is never double-counted. -/
theorem soak_policy_amended (s : ℚ) (azero : Bool) :
    (Sweep.init s azero).soak = (if azero then 0 else s) ∧
    (Sweep.init s azero).sourcemeter_soak = (if azero then s else 0) ∧
    (Sweep.init s azero).soak + (Sweep.init s azero).sourcemeter_soak = s ∧
    (DualSweep.init s azero).soak = (if azero then 0 else s) ∧
    (DualSweep.init s azero).primary_sourcemeter_soak = (if azero then s else 0) ∧
    (DualSweep.init s azero).secondary_sourcemeter_soak = (if azero then s else 0) ∧
    (DualSweep.init s azero).soak + (DualSweep.init s azero).primary_sourcemeter_soak = s ∧
    (PicoSweep.init s azero).toSweep = Sweep.init s azero ∧
    (PicoSweep.init s azero).ammeter_soak = (if azero then s else 0) ∧
    (PicoDualSweep.init s azero).toDualSweep = DualSweep.init s azero ∧
    (PicoDualSweep.init s azero).ammeter_soak = (if azero then s else 0) := by
  cases azero <;>
    simp [Sweep.init, DualSweep.init, PicoSweep.init, PicoDualSweep.init, soakDict]

/-- C3.  `fowler_nordheim_transform` never raises on a degenerate row: each
row is transformed independently (row `k` of the output is exactly the
transform of row `k` of the input, whatever the other rows hold); a row
with zero voltage gets the undefined marker in all four output fields; a
row with zero current gets the undefined marker in `fn_y` and `fn_y sd`. -/
theorem fn_transform_degenerate_rows (rows : List FnInput) (k : ℕ) (r : FnInput)
    (hk : rows[k]? = some r) :
    (fowler_nordheim_transform rows)[k]? = some (fnRow r) ∧
    (r.voltage = 0 → fnRow r = ⟨none, none, none, none⟩) ∧
    (r.current = 0 → (fnRow r).fn_y = none ∧ (fnRow r).fn_y_sd = none) := by
  refine ⟨?_, ?_, ?_⟩
  · simp [fowler_nordheim_transform, List.getElem?_map, hk]
  · intro hv
    simp [fnRow, x_transform, x_sd, y_transform, y_sd, hv]
  · intro hc
    by_cases hv : r.voltage = 0 <;>
      simp [fnRow, y_transform, y_sd, hv, hc]

/-- C3, witness at the two-row table with a zero-voltage first row and a
regular second row. -/
theorem fn_transform_degenerate_rows_witness :
    ([⟨0, 1, 2, 3⟩, ⟨1, 1, 1, 1⟩] : List FnInput)[0]? = some ⟨0, 1, 2, 3⟩ ∧
    ((fowler_nordheim_transform [⟨0, 1, 2, 3⟩, ⟨1, 1, 1, 1⟩])[0]? =
        some (fnRow ⟨0, 1, 2, 3⟩) ∧
      ((0 : ℝ) = 0 → fnRow ⟨0, 1, 2, 3⟩ = ⟨none, none, none, none⟩) ∧
      ((2 : ℝ) = 0 → (fnRow ⟨0, 1, 2, 3⟩).fn_y = none ∧
        (fnRow ⟨0, 1, 2, 3⟩).fn_y_sd = none)) :=
  ⟨rfl, fn_transform_degenerate_rows [⟨0, 1, 2, 3⟩, ⟨1, 1, 1, 1⟩] 0 ⟨0, 1, 2, 3⟩ rfl⟩

/-- C5.  On a row with nonzero voltage and nonzero current the transform
computes exactly the four documented formulas, the dimensionally suspect
`fn_x sd = (1/voltage) * sqrt(voltage_sd)` included. -/
theorem fn_transform_formulas (r : FnInput) (hv : r.voltage ≠ 0) (hc : r.current ≠ 0) :
    fnRow r =
      { fn_x := some (1 / r.voltage)
        fn_x_sd := some (1 / r.voltage * Real.sqrt r.voltage_sd)
        fn_y := some (Real.log |r.current / r.voltage ^ 2|)
        fn_y_sd := some (Real.sqrt ((2 / r.voltage * r.voltage_sd) ^ 2 +
          (1 / r.current * r.current_sd) ^ 2)) } := by
  simp [fnRow, x_transform, x_sd, y_transform, y_sd, hv, hc]

/-- C5, witness at the row `(2, 1, 3, 1)`. -/
theorem fn_transform_formulas_witness :
    (2 : ℝ) ≠ 0 ∧ (3 : ℝ) ≠ 0 ∧
    fnRow ⟨2, 1, 3, 1⟩ =
      { fn_x := some (1 / 2)
        fn_x_sd := some (1 / 2 * Real.sqrt 1)
        fn_y := some (Real.log |(3 : ℝ) / 2 ^ 2|)
        fn_y_sd := some (Real.sqrt ((2 / 2 * 1) ^ 2 + (1 / 3 * 1) ^ 2)) } :=
  ⟨by norm_num, by norm_num,
    fn_transform_formulas ⟨2, 1, 3, 1⟩ (by norm_num) (by norm_num)⟩

/-- Helper: the `i`-th generated linear sweep point. -/
theorem linspace_getElem? (start stop : ℝ) (num i : ℕ) (h : i < num) :
    (linspace start stop num)[i]? =
      some (start + i * ((stop - start) / ((num : ℝ) - 1))) := by
  unfold linspace
  rw [List.getElem?_map, List.getElem?_range h]
  rfl

/-- C6.  For all `count ≥ 2`, generating sweep points with the linear
policy yields a sequence of length `count` whose first element is `start`,
whose last element is `stop`, and whose successive differences are all
equal. -/
theorem linear_sweep_points (start stop : ℝ) (count : ℕ) (hc : 2 ≤ count) :
    SweepPoints.new start stop count "linear" =
      .ok ⟨linspace start stop count, "linear"⟩ ∧
    (linspace start stop count).length = count ∧
    (linspace start stop count).head? = some start ∧
    (linspace start stop count).getLast? = some stop ∧
    ∀ i, i + 1 < count →
      (linspace start stop count).getD (i + 1) 0 -
        (linspace start stop count).getD i 0 =
        (stop - start) / ((count : ℝ) - 1) := by
  have hlen : (linspace start stop count).length = count := by simp [linspace]
  have hne : ((count : ℝ) - 1) ≠ 0 := by
    have h2 : (2 : ℝ) ≤ (count : ℝ) := by exact_mod_cast hc
    intro h; linarith
  refine ⟨by simp [SweepPoints.new], hlen, ?_, ?_, ?_⟩
  · rw [List.head?_eq_getElem?, linspace_getElem? start stop count 0 (by omega)]
    simp
  · rw [List.getLast?_eq_getElem?, hlen,
      linspace_getElem? start stop count (count - 1) (by omega)]
    have hcast : ((count - 1 : ℕ) : ℝ) = (count : ℝ) - 1 := by
      have h1 : 1 ≤ count := by omega
      push_cast [h1]; ring
    rw [hcast]
    field_simp
  · intro i hi
    rw [List.getD_eq_getElem?_getD, List.getD_eq_getElem?_getD,
      linspace_getElem? start stop count (i + 1) hi,
      linspace_getElem? start stop count i (by omega)]
    simp only [Option.getD_some]
    push_cast
    ring

/-- C6, witness at `start = 1`, `stop = 3`, `count = 4`. -/
theorem linear_sweep_points_witness :
    2 ≤ 4 ∧
    (SweepPoints.new 1 3 4 "linear" = .ok ⟨linspace 1 3 4, "linear"⟩ ∧
      (linspace 1 3 4).length = 4 ∧
      (linspace 1 3 4).head? = some 1 ∧
      (linspace 1 3 4).getLast? = some 3 ∧
      ∀ i, i + 1 < 4 →
        (linspace 1 3 4).getD (i + 1) 0 - (linspace 1 3 4).getD i 0 =
          (3 - 1) / (((4 : ℕ) : ℝ) - 1)) :=
  ⟨by norm_num, linear_sweep_points 1 3 4 (by norm_num)⟩

/-- Helper: the keyword-merging fold of `regen` aborts with an error as
soon as the keyword list contains an unrecognized key. -/
theorem regen_fold_error (p : SParams) (kwargs : List RegenArg) (k : String)
    (hk : RegenArg.other k ∈ kwargs) :
    ∃ e, kwargs.foldlM regenStep p = Except.error e := by
  induction kwargs generalizing p with
  | nil => cases hk
  | cons a rest ih =>
    rw [List.foldlM_cons]
    rcases List.mem_cons.mp hk with h | h
    · subst h
      exact ⟨_, rfl⟩
    · cases a with
      | start x => exact ih { p with start := x } h
      | rend x => exact ih { p with stop := x } h
      | points n => exact ih { p with points := n } h
      | scale s => exact ih { p with scale := s } h
      | other k2 => exact ⟨_, rfl⟩

/-- Helper: the concrete linear sequence for `start=0, end=10, count=5`. -/
theorem linspace_0_10_5 : linspace 0 10 5 = [0, 5 / 2, 5, 15 / 2, 10] := by
  unfold linspace
  norm_num [List.range_succ]

/-- Helper: the concrete linear sequence for `start=0, end=20, count=5`. -/
theorem linspace_0_20_5 : linspace 0 20 5 = [0, 5, 10, 15, 20] := by
  unfold linspace
  norm_num [List.range_succ]

/-- C7.  `regen` merges a partial set of keyword overrides with the current
parameters, replaces the payload in place, and rejects any unknown keyword
with an error; in particular `regen(end=20)` on a sequence built with
`start=0, end=10, count=5, linear` preserves `start = 0` and `count = 5`
and makes the new last element `20`. -/
theorem regen_merge_and_reject :
    (∀ (sp : SweepPoints) (kwargs : List RegenArg) (k : String),
        RegenArg.other k ∈ kwargs → ∃ e, sp.regen kwargs = Except.error e) ∧
    (SweepPoints.new 0 10 5 "linear").bind
        (fun sp => sp.regen [RegenArg.rend 20]) =
      Except.ok ⟨linspace 0 20 5, "linear"⟩ ∧
    (linspace 0 20 5).head? = some 0 ∧
    (linspace 0 20 5).length = 5 ∧
    (linspace 0 20 5).getLast? = some 20 := by
  refine ⟨?_, ?_, ?_, ?_, ?_⟩
  · intro sp kwargs k hk
    obtain ⟨e, he⟩ := regen_fold_error
      { start := sp.values.headD 0
        stop := sp.values.getD (sp.values.length - 1) 0
        points := sp.values.length
        scale := sp.scale } kwargs k hk
    exact ⟨e, by rw [SweepPoints.regen, he]; rfl⟩
  · rw [show SweepPoints.new 0 10 5 "linear" =
        Except.ok ⟨linspace 0 10 5, "linear"⟩ by simp [SweepPoints.new]]
    rw [Except.bind, SweepPoints.regen, linspace_0_10_5]
    norm_num [List.foldlM_cons, regenStep, SweepPoints.new]
    rfl
  · rw [linspace_0_20_5]; rfl
  · rw [linspace_0_20_5]; rfl
  · rw [linspace_0_20_5]; rfl

/-- C7, witness: an unrecognized keyword (`foo`) is rejected. -/
theorem regen_merge_and_reject_witness :
    RegenArg.other "foo" ∈ [RegenArg.other "foo"] ∧
    ∃ e, SweepPoints.regen ⟨[], "linear"⟩ [RegenArg.other "foo"] = Except.error e :=
  ⟨by simp, regen_merge_and_reject.1 ⟨[], "linear"⟩ [RegenArg.other "foo"] "foo"
    (by simp)⟩

/-- Helper: reading a column of a nonempty table, one step. -/
theorem getCol_cons (nc : String × List ℚ) (rest : Table) (c : String) :
    Table.getCol (nc :: rest) c = if nc.1 = c then nc.2 else Table.getCol rest c := by
  by_cases h : nc.1 = c <;>
    simp [Table.getCol, List.find?_cons, h]

/-- Helper: column existence on a nonempty table, one step. -/
theorem hasCol_cons (nc : String × List ℚ) (rest : Table) (c : String) :
    Table.hasCol (nc :: rest) c = (decide (nc.1 = c) || Table.hasCol rest c) := by
  simp [Table.hasCol]

/-- Helper: mapping a column of a nonempty table, one step. -/
theorem mapCol_cons (nc : String × List ℚ) (rest : Table) (c : String) (f : ℚ → ℚ) :
    Table.mapCol (nc :: rest) c f =
      (if nc.1 = c then (nc.1, nc.2.map f) else nc) :: Table.mapCol rest c f := rfl

/-- Helper: mapping a column leaves that column's values mapped. -/
theorem getCol_mapCol_same (t : Table) (c : String) (f : ℚ → ℚ) :
    (t.mapCol c f).getCol c = (t.getCol c).map f := by
  induction t with
  | nil => rfl
  | cons nc rest ih =>
    by_cases h : nc.1 = c <;>
      simp [mapCol_cons, getCol_cons, h, ih]

/-- Helper: mapping one column leaves every other column's values alone. -/
theorem getCol_mapCol_ne (t : Table) (c c' : String) (f : ℚ → ℚ) (h : c' ≠ c) :
    (t.mapCol c f).getCol c' = t.getCol c' := by
  induction t with
  | nil => rfl
  | cons nc rest ih =>
    have h1 : ¬ (c = c') := fun hx => h hx.symm
    by_cases hc : nc.1 = c
    · have hne : ¬ nc.1 = c' := fun hx => h (hx.symm.trans hc)
      simp [mapCol_cons, getCol_cons, hc, hne, h1, ih]
    · by_cases hc' : nc.1 = c' <;>
        simp [mapCol_cons, getCol_cons, hc, hc', h, h1, ih]

/-- Helper: mapping a column does not change which columns exist. -/
theorem hasCol_mapCol (t : Table) (c c' : String) (f : ℚ → ℚ) :
    (t.mapCol c f).hasCol c' = t.hasCol c' := by
  induction t with
  | nil => rfl
  | cons nc rest ih =>
    by_cases hc : nc.1 = c <;>
      simp [mapCol_cons, hasCol_cons, hc, ih]

/-- Helper: two maps of the same column compose. -/
theorem mapCol_mapCol_same (t : Table) (c : String) (f g : ℚ → ℚ) :
    (t.mapCol c f).mapCol c g = t.mapCol c (fun x => g (f x)) := by
  induction t with
  | nil => rfl
  | cons nc rest ih =>
    by_cases hc : nc.1 = c <;>
      simp [mapCol_cons, hc, ih]

/-- Helper: maps of different columns commute. -/
theorem mapCol_comm (t : Table) (c c' : String) (f g : ℚ → ℚ) (h : c ≠ c') :
    (t.mapCol c f).mapCol c' g = (t.mapCol c' g).mapCol c f := by
  induction t with
  | nil => rfl
  | cons nc rest ih =>
    have h1 : ¬ (c = c') := h
    have h2 : ¬ (c' = c) := fun hx => h hx.symm
    by_cases hc : nc.1 = c
    · have hne : ¬ nc.1 = c' := fun hx => h (hc.symm.trans hx)
      simp [mapCol_cons, hc, hne, h1, h2, ih]
    · by_cases hc' : nc.1 = c' <;>
        simp [mapCol_cons, hc, hc', h1, h2, ih]

/-- Helper: mapping a column with the identity is the identity. -/
theorem mapCol_id (t : Table) (c : String) : t.mapCol c (fun x => x) = t := by
  induction t with
  | nil => rfl
  | cons nc rest ih =>
    by_cases hc : nc.1 = c
    · rw [mapCol_cons, if_pos hc, ih]
      simp
    · rw [mapCol_cons, if_neg hc, ih]

/-- Helper: negating a column twice restores the table. -/
theorem mapCol_neg_neg (t : Table) (c : String) :
    (t.mapCol c (fun x => x * (-1))).mapCol c (fun x => x * (-1)) = t := by
  rw [mapCol_mapCol_same]
  have : (fun x : ℚ => x * (-1) * (-1)) = fun x : ℚ => x := by
    funext x; ring
  rw [this, mapCol_id]

/-- Helper: negating a column twice restores the table, `-x` spelling. -/
theorem mapCol_neg_neg2 (t : Table) (c : String) :
    (t.mapCol c (fun x => -x)).mapCol c (fun x => -x) = t := by
  rw [mapCol_mapCol_same]
  have h : (fun x : ℚ => -(-x)) = fun x : ℚ => x := by
    funext x; ring
  rw [h, mapCol_id]

/-- Helper: the returned table of `invert_current`, normalized so that the
secondary condition is read off the receiver. -/
theorem invert_current_snd (t : Table) (primary secondary inplace : Bool) :
    (Analysis.invert_current t primary secondary inplace).2 =
      (if t.hasCol "secondary current" && secondary
        then (if primary then t.mapCol "current" (fun x => x * (-1)) else t).mapCol
          "secondary current" (fun x => x * (-1))
        else (if primary then t.mapCol "current" (fun x => x * (-1)) else t)) := by
  cases primary <;> simp [Analysis.invert_current, hasCol_mapCol]

/-- C8.  `invert_current` with `primary` true multiplies the current column
by `-1` (`{current: 3}` becomes `{current: -3}`), multiplies the secondary
current column by `-1` exactly when `secondary` is true and that column
exists, leaves every other column unchanged, and applying the same call
twice returns the original table. -/
theorem invert_current_spec :
    (∀ (t : Table) (secondary : Bool),
        (Analysis.invert_current t true secondary false).2.getCol "current"
          = (t.getCol "current").map (fun x => x * (-1))) ∧
    (∀ (t : Table) (primary secondary : Bool),
        (Analysis.invert_current t primary secondary false).2.getCol "secondary current"
          = if t.hasCol "secondary current" && secondary
            then (t.getCol "secondary current").map (fun x => x * (-1))
            else t.getCol "secondary current") ∧
    (∀ (t : Table) (primary secondary : Bool) (c : String),
        c ≠ "current" → c ≠ "secondary current" →
        (Analysis.invert_current t primary secondary false).2.getCol c
          = t.getCol c) ∧
    (Analysis.invert_current [("current", [3])] true false false).2
      = [("current", [-3])] ∧
    (∀ (t : Table) (primary secondary inplace : Bool),
        (Analysis.invert_current
            (Analysis.invert_current t primary secondary inplace).2
            primary secondary inplace).2 = t) := by
  have hscne : ("secondary current" : String) ≠ "current" := by decide
  have hcne : ("current" : String) ≠ "secondary current" := by decide
  refine ⟨?_, ?_, ?_, ?_, ?_⟩
  · intro t secondary
    rw [invert_current_snd]
    cases hb : t.hasCol "secondary current" && secondary <;>
      simp [hb, getCol_mapCol_same, getCol_mapCol_ne _ _ _ _ hcne]
  · intro t primary secondary
    rw [invert_current_snd]
    cases hb : t.hasCol "secondary current" && secondary <;>
      cases primary <;>
        simp [hb, getCol_mapCol_same, getCol_mapCol_ne _ _ _ _ hscne]
  · intro t primary secondary c hc hsc
    rw [invert_current_snd]
    cases hb : t.hasCol "secondary current" && secondary <;>
      cases primary <;>
        simp [hb, getCol_mapCol_ne _ _ _ _ hc, getCol_mapCol_ne _ _ _ _ hsc]
  · norm_num [Analysis.invert_current, Table.mapCol, Table.hasCol]
  · intro t primary secondary inplace
    rw [invert_current_snd, invert_current_snd]
    cases hb : t.hasCol "secondary current" && secondary
    · cases primary <;> simp [hb, hasCol_mapCol, mapCol_neg_neg, mapCol_neg_neg2]
    · cases primary
      · simp [hb, hasCol_mapCol, mapCol_neg_neg, mapCol_neg_neg2]
      · simp only [hb, hasCol_mapCol, if_pos rfl, if_true]
        rw [mapCol_comm _ _ _ _ _ (by decide), mapCol_neg_neg, mapCol_neg_neg]

/-- C8, witness: a column other than the two current columns is untouched. -/
theorem invert_current_spec_witness :
    ("voltage" : String) ≠ "current" ∧
    ("voltage" : String) ≠ "secondary current" ∧
    (Analysis.invert_current [("voltage", [7])] true true false).2.getCol "voltage"
      = Table.getCol [("voltage", [7])] "voltage" :=
  ⟨by decide, by decide,
    invert_current_spec.2.2.1 [("voltage", [7])] true true "voltage"
      (by decide) (by decide)⟩

/-- Helper: the columns of the example table. -/
theorem zeroExample_cols :
    Table.getCol zeroExample "voltage" = [-1, 2] ∧
    Table.getCol zeroExample "current" = [-5, 8] ∧
    Table.hasCol zeroExample "secondary voltage" = false := by
  refine ⟨?_, ?_, by decide⟩ <;> simp [zeroExample, getCol_cons]

/-- Helper: the calibration constant of the example table is the current
`-5` measured at the non-positive voltage closest to zero. -/
theorem find_zero_example : find_zero [-1, 2] [-5, 8] = some (-5) := by
  have hf : ([-1, 2] : List ℚ).filter (fun v => v ≤ 0) = [-1] := by
    norm_num [List.filter_cons]
  have hva : valueAt [-1, 2] [-5, 8] (-1) = -5 := by decide
  simp only [find_zero, hf, minAbs, List.foldl_nil, hva]
  norm_num

/-- Helper: subtracting the example calibration from the current column. -/
theorem mapCol_example :
    Table.mapCol zeroExample "current" (fun x => x - (-5))
      = [("voltage", [-1, 2]), ("current", [0, 13])] := by
  simp [zeroExample, Table.mapCol]
  norm_num

/-- Helper: `zero` at the example table without the inplace flag. -/
theorem zero_example_false_eval :
    Analysis.zero zeroExample false
      = some (zeroExample, [("voltage", [-1, 2]), ("current", [0, 13])]) := by
  obtain ⟨hv, hc, hs⟩ := zeroExample_cols
  simp only [Analysis.zero, hs, Bool.false_eq_true, if_false, hv, hc,
    find_zero_example, Option.map_some', mapCol_example]

/-- Helper: `zero` at the example table with the inplace flag. -/
theorem zero_example_true_eval :
    Analysis.zero zeroExample true
      = some ([("voltage", [-1, 2]), ("current", [0, 13])],
          [("voltage", [-1, 2]), ("current", [0, 13])]) := by
  obtain ⟨hv, hc, hs⟩ := zeroExample_cols
  simp only [Analysis.zero, hs, Bool.false_eq_true, if_false, hv, hc,
    find_zero_example, Option.map_some', mapCol_example, if_true]

/-- C9.  Calling `zero` or `invert_current` without the inplace flag leaves
the receiver table unchanged; the transformed data is only in the returned
table. -/
theorem not_inplace_frame :
    (∀ (t : Table) (r : Table × Table), Analysis.zero t false = some r → r.1 = t) ∧
    (∀ (t : Table) (primary secondary : Bool),
        (Analysis.invert_current t primary secondary false).1 = t) := by
  constructor
  · intro t r hr
    simp only [Analysis.zero, Option.map_eq_some'] at hr
    obtain ⟨cal, _, hr⟩ := hr
    rw [← hr]
    simp
  · intro t primary secondary
    simp [Analysis.invert_current]

/-- C9, witness at the two-row example table. -/
theorem not_inplace_frame_witness :
    Analysis.zero zeroExample false
        = some (zeroExample, [("voltage", [-1, 2]), ("current", [0, 13])]) ∧
    (zeroExample, ([("voltage", [-1, 2]), ("current", [0, 13])] : Table)).1
      = zeroExample :=
  ⟨zero_example_false_eval, not_inplace_frame.1 zeroExample
    (zeroExample, [("voltage", [-1, 2]), ("current", [0, 13])])
    zero_example_false_eval⟩

/-- C10.  With the inplace flag, `zero` and `invert_current` both overwrite
the receiver with the transformed table and also return it, and the
returned table equals the one the corresponding non-inplace call returns. -/
theorem inplace_returns_transformed :
    (∀ t : Table, (Analysis.zero t true).map Prod.snd
        = (Analysis.zero t false).map Prod.snd) ∧
    (∀ (t : Table) (r : Table × Table), Analysis.zero t true = some r → r.1 = r.2) ∧
    (∀ (t : Table) (primary secondary : Bool),
        (Analysis.invert_current t primary secondary true).2
          = (Analysis.invert_current t primary secondary false).2) ∧
    (∀ (t : Table) (primary secondary : Bool),
        (Analysis.invert_current t primary secondary true).1
          = (Analysis.invert_current t primary secondary true).2) := by
  refine ⟨?_, ?_, ?_, ?_⟩
  · intro t
    simp only [Analysis.zero, Option.map_map]
    rfl
  · intro t r hr
    simp only [Analysis.zero, Option.map_eq_some'] at hr
    obtain ⟨cal, _, hr⟩ := hr
    rw [← hr]
    simp
  · intro t primary secondary
    simp [Analysis.invert_current]
  · intro t primary secondary
    simp [Analysis.invert_current]

/-- C10, witness: inplace `zero` at the example table returns the
transformed table in both components. -/
theorem inplace_returns_transformed_witness :
    Analysis.zero zeroExample true
        = some ([("voltage", [-1, 2]), ("current", [0, 13])],
            [("voltage", [-1, 2]), ("current", [0, 13])]) ∧
    (([("voltage", [-1, 2]), ("current", [0, 13])] : Table),
        ([("voltage", [-1, 2]), ("current", [0, 13])] : Table)).1
      = (([("voltage", [-1, 2]), ("current", [0, 13])] : Table),
        ([("voltage", [-1, 2]), ("current", [0, 13])] : Table)).2 :=
  ⟨zero_example_true_eval, inplace_returns_transformed.2.1 zeroExample
    ([("voltage", [-1, 2]), ("current", [0, 13])],
      [("voltage", [-1, 2]), ("current", [0, 13])]) zero_example_true_eval⟩

/-- Helper: when the scanned non-positive subset has a closest-to-zero
element `m`, both of `find_zero`'s scans produce `m` (they filter the same
subset), the two magnitudes tie, and the averaging branch returns the
current at `m`. -/
theorem find_zero_eq (vs cs : List ℚ) (m : ℚ)
    (hm : minAbs (vs.filter (fun v => v ≤ 0)) = some m) :
    find_zero vs cs = some (valueAt vs cs m) := by
  unfold find_zero
  simp only [hm, lt_irrefl, gt_iff_lt, if_false]
  norm_num

/-- Helper: a list with a non-positive member has a nonempty non-positive
subset, so `min` finds a closest-to-zero element. -/
theorem minAbs_filter_some (vs : List ℚ) (hex : ∃ v ∈ vs, v ≤ 0) :
    ∃ m, minAbs (vs.filter (fun v => v ≤ 0)) = some m := by
  obtain ⟨v, hv, hle⟩ := hex
  have hmem : v ∈ vs.filter (fun v => v ≤ 0) :=
    List.mem_filter.mpr ⟨hv, decide_eq_true hle⟩
  cases hfe : vs.filter (fun v => v ≤ 0) with
  | nil => rw [hfe] at hmem; cases hmem
  | cons x xs => exact ⟨_, rfl⟩

/-- C2.  On a single-sweep table with a non-positive voltage, `zero`
computes one scalar offset: both scanned subsets are the non-positive
voltages, each yields the same closest-to-zero voltage `m`, the magnitude
comparison ties, and the offset is the (average of the twice-selected)
current measured at `m`; that offset is subtracted from every value of the
current column of the returned copy.  On the two-row table
`{voltage: -1, current: -5}, {voltage: 2, current: 8}` the offset is `-5`.
The `Nodup` hypothesis keeps the `at`-lookup of the code single-valued. -/
theorem zero_offset_rule :
    (∀ t : Table,
        t.hasCol "secondary voltage" = false →
        (t.getCol "voltage").Nodup →
        (∃ v ∈ t.getCol "voltage", v ≤ 0) →
        ∃ m, minAbs ((t.getCol "voltage").filter (fun v => v ≤ 0)) = some m ∧
          find_zero (t.getCol "voltage") (t.getCol "current")
            = some (valueAt (t.getCol "voltage") (t.getCol "current") m) ∧
          Analysis.zero t false
            = some (t, t.mapCol "current"
                (fun x => x - valueAt (t.getCol "voltage") (t.getCol "current") m)) ∧
          (t.mapCol "current"
              (fun x => x - valueAt (t.getCol "voltage") (t.getCol "current") m)).getCol
              "current"
            = (t.getCol "current").map
                (fun x => x - valueAt (t.getCol "voltage") (t.getCol "current") m)) ∧
    Analysis.zero zeroExample false
      = some (zeroExample, [("voltage", [-1, 2]), ("current", [0, 13])]) := by
  refine ⟨?_, zero_example_false_eval⟩
  intro t hs _hnodup hex
  obtain ⟨m, hm⟩ := minAbs_filter_some (t.getCol "voltage") hex
  have hfz := find_zero_eq (t.getCol "voltage") (t.getCol "current") m hm
  refine ⟨m, hm, hfz, ?_, getCol_mapCol_same t "current" _⟩
  simp only [Analysis.zero, hs, Bool.false_eq_true, if_false, hfz,
    Option.map_some']

/-- C2, witness at the two-row example table. -/
theorem zero_offset_rule_witness :
    Table.hasCol zeroExample "secondary voltage" = false ∧
    (Table.getCol zeroExample "voltage").Nodup ∧
    (∃ v ∈ Table.getCol zeroExample "voltage", v ≤ 0) ∧
    (∃ m, minAbs ((Table.getCol zeroExample "voltage").filter (fun v => v ≤ 0))
          = some m ∧
        find_zero (Table.getCol zeroExample "voltage")
            (Table.getCol zeroExample "current")
          = some (valueAt (Table.getCol zeroExample "voltage")
              (Table.getCol zeroExample "current") m) ∧
        Analysis.zero zeroExample false
          = some (zeroExample, Table.mapCol zeroExample "current"
              (fun x => x - valueAt (Table.getCol zeroExample "voltage")
                (Table.getCol zeroExample "current") m)) ∧
        (Table.mapCol zeroExample "current"
            (fun x => x - valueAt (Table.getCol zeroExample "voltage")
              (Table.getCol zeroExample "current") m)).getCol "current"
          = (Table.getCol zeroExample "current").map
              (fun x => x - valueAt (Table.getCol zeroExample "voltage")
                (Table.getCol zeroExample "current") m)) :=
  ⟨by decide, by decide, by decide,
    zero_offset_rule.1 zeroExample (by decide) (by decide) (by decide)⟩

/-- Helper: a row index no store of the loop writes keeps its old value. -/
theorem runStores_of_not_mem (n : ℕ) (meas : ℕ → ℕ → MRecord)
    (pairs : List (ℕ × ℕ)) (tab : RTable) (idx : ℕ)
    (h : ∀ p ∈ pairs, p.1 * n + p.2 ≠ idx) :
    runStores n meas pairs tab idx = tab idx := by
  induction pairs generalizing tab with
  | nil => rfl
  | cons p rest ih =>
    have step : runStores n meas (p :: rest) tab
        = runStores n meas rest (tab.write (p.1 * n + p.2) (meas p.1 p.2)) := rfl
    rw [step, ih _ (fun q hq => h q (List.mem_cons_of_mem _ hq))]
    exact if_neg (fun he => (h p (List.mem_cons_self p rest) he.symm).elim)

/-- Helper: the last store writing a row index determines its final value;
with a uniquely-writing pair the loop leaves that pair's measurement. -/
theorem runStores_of_mem (n : ℕ) (meas : ℕ → ℕ → MRecord)
    (pairs : List (ℕ × ℕ)) (tab : RTable) (i j : ℕ)
    (hmem : (i, j) ∈ pairs)
    (huniq : ∀ p ∈ pairs, p.1 * n + p.2 = i * n + j → p = (i, j)) :
    runStores n meas pairs tab (i * n + j) = some (meas i j) := by
  induction pairs generalizing tab with
  | nil => cases hmem
  | cons p rest ih =>
    have step : runStores n meas (p :: rest) tab
        = runStores n meas rest (tab.write (p.1 * n + p.2) (meas p.1 p.2)) := rfl
    by_cases hp : (i, j) ∈ rest
    · rw [step]
      exact ih _ hp (fun q hq hq2 => huniq q (List.mem_cons_of_mem _ hq) hq2)
    · have hpe : p = (i, j) := by
        rcases List.mem_cons.mp hmem with h | h
        · exact h.symm
        · exact absurd h hp
      have hrest : ∀ q ∈ rest, q.1 * n + q.2 ≠ i * n + j := by
        intro q hq hqe
        exact hp ((huniq q (List.mem_cons_of_mem _ hq) hqe) ▸ hq)
      rw [step, runStores_of_not_mem n meas rest _ _ hrest, hpe]
      simp [RTable.write]

/-- Helper: membership in the nested iteration order. -/
theorem sweepPairs_mem (m n i j : ℕ) :
    ((i, j) ∈ sweepPairs m n) ↔ (i < m ∧ j < n) := by
  simp [sweepPairs, eq_comm]

/-- Helper: every iterated pair has its secondary index below `n`. -/
theorem sweepPairs_snd_lt (m n : ℕ) (p : ℕ × ℕ) (hp : p ∈ sweepPairs m n) :
    p.2 < n := by
  obtain ⟨i, j⟩ := p
  exact ((sweepPairs_mem m n i j).mp hp).2

/-- Helper: the flattened index `i*n+j` with `j < n` determines `i`, `j`. -/
theorem flat_index_inj (n i j a b : ℕ) (hj : j < n) (hb : b < n)
    (he : a * n + b = i * n + j) : a = i ∧ b = j := by
  have hn : 0 < n := Nat.lt_of_le_of_lt (Nat.zero_le _) hj
  have he2 : n * a + b = n * i + j := by
    rw [Nat.mul_comm n a, Nat.mul_comm n i]; exact he
  have hdiv : a = i := by
    have d1 : (n * a + b) / n = a := by
      rw [Nat.mul_add_div hn, Nat.div_eq_of_lt hb, Nat.add_zero]
    have d2 : (n * i + j) / n = i := by
      rw [Nat.mul_add_div hn, Nat.div_eq_of_lt hj, Nat.add_zero]
    rw [← d1, ← d2, he2]
  refine ⟨hdiv, ?_⟩
  subst hdiv
  omega

/-- C4.  `DualSweep.execute` records the measurement taken at primary index
`i` and secondary index `j` at row `i*n+j` of both tables (row-major,
primary-outer order), and returns the row-wise join with the primary
columns unprefixed and the secondary columns carrying the `secondary `
prefix. -/
theorem dual_sweep_execute_indexing (m n : ℕ) (measP measS : ℕ → ℕ → MRecord)
    (i j : ℕ) (hi : i < m) (hj : j < n) :
    (DualSweep.execute m n measP measS).1 (i * n + j) = some (measP i j) ∧
    (DualSweep.execute m n measP measS).2.1 (i * n + j) = some (measS i j) ∧
    (DualSweep.execute m n measP measS).2.2[i * n + j]? =
      some (MRecord.toRow (measP i j) ++
        prefixRow "secondary " (MRecord.toRow (measS i j))) := by
  have hmem : (i, j) ∈ sweepPairs m n := (sweepPairs_mem m n i j).mpr ⟨hi, hj⟩
  have huniq : ∀ p ∈ sweepPairs m n, p.1 * n + p.2 = i * n + j → p = (i, j) := by
    intro p hp he
    have h2 := sweepPairs_snd_lt m n p hp
    obtain ⟨h3, h4⟩ := flat_index_inj n i j p.1 p.2 hj h2 he
    exact Prod.ext h3 h4
  have hP := runStores_of_mem n measP (sweepPairs m n) (fun _ => none) i j hmem huniq
  have hS := runStores_of_mem n measS (sweepPairs m n) (fun _ => none) i j hmem huniq
  have hidx : i * n + j < m * n := by
    have h1 : i * n + j < (i + 1) * n := by
      rw [Nat.succ_mul]; omega
    exact Nat.lt_of_lt_of_le h1 (Nat.mul_le_mul_right n hi)
  refine ⟨hP, hS, ?_⟩
  show ((List.range (m * n)).map _)[i * n + j]? = _
  rw [List.getElem?_map, List.getElem?_range hidx]
  simp only [Option.map_some', hP, hS, joinedRow, Option.map_some',
    Option.getD_some]

/-- C4, witness on a 1×1 dual sweep. -/
theorem dual_sweep_execute_indexing_witness :
    (0 : ℕ) < 1 ∧
    ((DualSweep.execute 1 1 (fun _ _ => ⟨1, 2, 3, 4⟩)
        (fun _ _ => ⟨5, 6, 7, 8⟩)).1 (0 * 1 + 0) = some ⟨1, 2, 3, 4⟩ ∧
      (DualSweep.execute 1 1 (fun _ _ => ⟨1, 2, 3, 4⟩)
        (fun _ _ => ⟨5, 6, 7, 8⟩)).2.1 (0 * 1 + 0) = some ⟨5, 6, 7, 8⟩ ∧
      (DualSweep.execute 1 1 (fun _ _ => ⟨1, 2, 3, 4⟩)
        (fun _ _ => ⟨5, 6, 7, 8⟩)).2.2[0 * 1 + 0]? =
        some (MRecord.toRow ⟨1, 2, 3, 4⟩ ++
          prefixRow "secondary " (MRecord.toRow ⟨5, 6, 7, 8⟩))) :=
  ⟨Nat.zero_lt_one,
    dual_sweep_execute_indexing 1 1 (fun _ _ => ⟨1, 2, 3, 4⟩)
      (fun _ _ => ⟨5, 6, 7, 8⟩) 0 0 Nat.zero_lt_one Nat.zero_lt_one⟩

end Nanolab
